import Mathlib

/-!
Shallow embedding of the tabular temporal-difference control algorithms of
`algorithms.py` (egreedy_policy, sarsa, qlearning, double_qlearning), and
proofs of the specification claims about them.

Modelling choices:
- the numpy 2-d value table becomes `List (List ℚ)`; numpy indexing,
  including negative indices and the IndexError on out-of-range indices,
  is modelled by `rowGet` / `getEntry` / `setEntry` returning `Option`;
- the global numpy random source becomes an explicit `RandState` carrying
  the upcoming outputs of `np.random.rand` and `np.random.choice`
  (a draw past the end of the list yields the default `0`, which is a
  legal output of both primitives);
- a gym environment becomes `Env`: a deterministic step function from the
  observed state and the chosen action to (next state, reward, done);
- the unbounded `while True` episode loop becomes a fuel-indexed
  recursion returning `none` when the fuel runs out, so `some` results
  are exactly the terminating, error-free runs of the python code;
- `np.argmax` over a row becomes `argmaxList`, the first index achieving
  the maximum (proved below), with the ValueError on an empty row
  modelled by explicit emptiness guards where the code calls it.
-/

set_option autoImplicit false

namespace TD

/-- The action-value table: one row of per-action values per state. -/
abbrev Table := List (List ℚ)

/-- Normalise a (possibly negative) numpy index into `[0, len)`;
`none` models the IndexError raised outside `[-len, len)`. -/
def normIdx (len : Nat) (s : Int) : Option Nat :=
  if 0 ≤ s ∧ s < (len : Int) then some s.toNat
  else if -(len : Int) ≤ s ∧ s < 0 then some (s + (len : Int)).toNat
  else none

/-- `Q[s]`: the row of table `Q` named by the integer index `s`. -/
def rowGet (Q : Table) (s : Int) : Option (List ℚ) :=
  (normIdx Q.length s).bind fun i => Q.get? i

/-- `Q[s][a]` for an action index `a` (always non-negative in the code,
since actions come from `argmax` or `np.random.choice`). -/
def getEntry (Q : Table) (s : Int) (a : Nat) : Option ℚ :=
  (rowGet Q s).bind fun row => row.get? a

/-- `Q[s][a] = v`: in-place numpy assignment, as a functional update. -/
def setEntry (Q : Table) (s : Int) (a : Nat) (v : ℚ) : Option Table :=
  (normIdx Q.length s).bind fun i =>
    match Q.get? i with
    | none => none
    | some row => if a < row.length then some (Q.set i (row.set a v)) else none

/-- The upcoming outputs of the shared numpy random source: `rands` are
the next values of `np.random.rand()`, `choices` the next values of
`np.random.choice`. -/
structure RandState where
  rands : List ℚ
  choices : List Nat
deriving DecidableEq

/-- `np.random.rand()`: pop the next uniform draw. -/
def npRand (g : RandState) : ℚ × RandState :=
  (g.rands.headD 0, RandState.mk g.rands.tail g.choices)

/-- `np.random.choice(np.arange(k))`: pop the next choice draw, reduced
into range. -/
def npChoice (k : Nat) (g : RandState) : Nat × RandState :=
  (g.choices.headD 0 % k, RandState.mk g.rands g.choices.tail)

/-- A random state is valid when every queued uniform draw lies in
`[0, 1)`, as `np.random.rand` guarantees. -/
def RandState.Valid (g : RandState) : Prop :=
  ∀ x ∈ g.rands, 0 ≤ x ∧ x < 1

/-- `np.argmax`: the first (lowest) index achieving the maximum of the
list. The `[]` case is a dummy (numpy raises there; callers guard it). -/
def argmaxList : List ℚ → Nat
  | [] => 0
  | [_] => 0
  | x :: y :: rest =>
    if x < (y :: rest).getD (argmaxList (y :: rest)) 0 then
      argmaxList (y :: rest) + 1
    else 0

/-- `egreedy_policy(s, Q, epsilon)`: draw one uniform number; if it is
below epsilon return a random action of the row `Q[s]`, otherwise the
argmax of `Q[s]`. `none` models the exceptions (IndexError on a bad
state index, ValueError of choice/argmax on an empty row). -/
def egreedy_policy (s : Int) (Q : Table) (epsilon : ℚ) (g : RandState) :
    Option (Nat × RandState) :=
  let random := (npRand g).1
  let g1 := (npRand g).2
  if random < epsilon then
    match rowGet Q s with
    | none => none
    | some row =>
      if row.length = 0 then none
      else some (npChoice row.length g1)
  else
    match rowGet Q s with
    | none => none
    | some row =>
      if row.length = 0 then none
      else some (argmaxList row, g1)

/-- A gym environment, modelled deterministically: `stepf` maps the
current observed state and the action taken to
`(next_state, reward, done)`. -/
structure Env where
  nS : Nat
  nA : Nat
  reset : Int
  stepf : Int → Nat → Int × ℚ × Bool

/-- `zero_value(env)`: the zero-filled `(nS, nA)` table. -/
def zero_value (env : Env) : Table :=
  List.replicate env.nS (List.replicate env.nA 0)

/-- One pass of the sarsa `while True` body, given the current state and
the action chosen on the previous pass: step the environment, choose the
next action epsilon-greedily from the same table, apply the TD(0) update
`Q[s][a] += alpha * (reward + gamma * Q[s1][a1] - Q[s][a])`, and report
`(next_action, Q, g, next_state, reward, done)`. -/
def sarsaBody (E : Env) (alpha gamma epsilon : ℚ) (state : Int) (action : Nat)
    (Q : Table) (g : RandState) :
    Option (Nat × Table × RandState × Int × ℚ × Bool) :=
  let res := E.stepf state action
  let s1 := res.1
  let r := res.2.1
  let done := res.2.2
  match egreedy_policy s1 Q epsilon g with
  | none => none
  | some (a1, g1) =>
    match getEntry Q state action, getEntry Q s1 a1 with
    | some qsa, some qn =>
      match setEntry Q state action (qsa + alpha * (r + gamma * qn - qsa)) with
      | some Qn => some (a1, Qn, g1, s1, r, done)
      | none => none
    | _, _ => none

/-- The sarsa episode loop, fuel-indexed; `acc` is the running
`sum_rewards[t]`. Returns the table, the random state and the episode's
total reward when the environment signals `done`. -/
def sarsaLoop (E : Env) (alpha gamma epsilon : ℚ) :
    Nat → Int → Nat → Table → RandState → ℚ → Option (Table × RandState × ℚ)
  | 0, _, _, _, _, _ => none
  | fuel + 1, state, action, Q, g, acc =>
    match sarsaBody E alpha gamma epsilon state action Q g with
    | none => none
    | some (a1, Qn, g1, s1, r, done) =>
      if done then some (Qn, g1, acc + r)
      else sarsaLoop E alpha gamma epsilon fuel s1 a1 Qn g1 (acc + r)

/-- The outer `for t in range(num_episodes)` loop of sarsa: reset,
choose the initial action epsilon-greedily, run the episode, append
its reward total to the trace. -/
def sarsaEpisodes (E : Env) (alpha gamma epsilon : ℚ) (fuel : Nat) :
    Nat → Table → RandState → List ℚ → Option (Table × List ℚ × RandState)
  | 0, Q, g, trace => some (Q, trace, g)
  | n + 1, Q, g, trace =>
    match egreedy_policy E.reset Q epsilon g with
    | none => none
    | some (action, g1) =>
      match sarsaLoop E alpha gamma epsilon fuel E.reset action Q g1 0 with
      | none => none
      | some (Qn, g2, total) =>
        sarsaEpisodes E alpha gamma epsilon fuel n Qn g2 (trace ++ [total])

/-- `sarsa(env, alpha, gamma, epsilon, num_episodes)`; `range` of a
non-positive count is empty, hence `num_episodes.toNat` episodes. -/
def sarsa (E : Env) (alpha gamma epsilon : ℚ) (num_episodes : Int)
    (fuel : Nat) (g : RandState) : Option (Table × List ℚ × RandState) :=
  sarsaEpisodes E alpha gamma epsilon fuel num_episodes.toNat (zero_value E) g []

/-- The part of the qlearning `while True` body after the action has been
chosen: step the environment, bootstrap from the argmax entry of the next
state's row, apply `Q[s][a] += alpha * (r + gamma * Q[s1][argmax] - Q[s][a])`,
and report `(action, Q, g, next_state, reward, done)`. -/
def qlearningUpdate (E : Env) (alpha gamma : ℚ) (state : Int) (action : Nat)
    (Q : Table) (g : RandState) :
    Option (Nat × Table × RandState × Int × ℚ × Bool) :=
  let res := E.stepf state action
  let s1 := res.1
  let r := res.2.1
  let done := res.2.2
  match rowGet Q s1 with
  | none => none
  | some row =>
    if row.length = 0 then none
    else
      let qn := row.getD (argmaxList row) 0
      match getEntry Q state action with
      | none => none
      | some qsa =>
        match setEntry Q state action (qsa + alpha * (r + gamma * qn - qsa)) with
        | some Qn => some (action, Qn, g, s1, r, done)
        | none => none

/-- One pass of the qlearning `while True` body: choose the action
epsilon-greedily at the top of the step, then update. -/
def qlearningBody (E : Env) (alpha gamma epsilon : ℚ) (state : Int)
    (Q : Table) (g : RandState) :
    Option (Nat × Table × RandState × Int × ℚ × Bool) :=
  match egreedy_policy state Q epsilon g with
  | none => none
  | some (action, g1) => qlearningUpdate E alpha gamma state action Q g1

/-- The qlearning episode loop, fuel-indexed. -/
def qlearningLoop (E : Env) (alpha gamma epsilon : ℚ) :
    Nat → Int → Table → RandState → ℚ → Option (Table × RandState × ℚ)
  | 0, _, _, _, _ => none
  | fuel + 1, state, Q, g, acc =>
    match qlearningBody E alpha gamma epsilon state Q g with
    | none => none
    | some (_, Qn, g1, s1, r, done) =>
      if done then some (Qn, g1, acc + r)
      else qlearningLoop E alpha gamma epsilon fuel s1 Qn g1 (acc + r)

/-- The outer episode loop of qlearning. -/
def qlearningEpisodes (E : Env) (alpha gamma epsilon : ℚ) (fuel : Nat) :
    Nat → Table → RandState → List ℚ → Option (Table × List ℚ × RandState)
  | 0, Q, g, trace => some (Q, trace, g)
  | n + 1, Q, g, trace =>
    match qlearningLoop E alpha gamma epsilon fuel E.reset Q g 0 with
    | none => none
    | some (Qn, g1, total) =>
      qlearningEpisodes E alpha gamma epsilon fuel n Qn g1 (trace ++ [total])

/-- `qlearning(env, alpha, gamma, epsilon, num_episodes)`. -/
def qlearning (E : Env) (alpha gamma epsilon : ℚ) (num_episodes : Int)
    (fuel : Nat) (g : RandState) : Option (Table × List ℚ × RandState) :=
  qlearningEpisodes E alpha gamma epsilon fuel num_episodes.toNat
    (zero_value E) g []

/-- Elementwise sum `Q1 + Q2` of two numpy tables. -/
def addTables (Q1 Q2 : Table) : Table :=
  List.zipWith (fun r1 r2 => List.zipWith (· + ·) r1 r2) Q1 Q2

/-- Elementwise halving, so `halfTable (addTables Q1 Q2)` is `(Q1+Q2)/2`. -/
def halfTable (Q : Table) : Table :=
  Q.map (fun row => row.map (· / 2))

/-- The part of the double_qlearning `while True` body after the action
has been chosen: step the environment, flip the coin `rand() < .5`; on
heads update `Q1[s][a] += alpha * (r + gamma * Q2[s1][argmax Q1[s1]] - Q1[s][a])`,
on tails symmetrically update `Q2` bootstrapping from `Q1`. -/
def doubleUpdate (E : Env) (alpha gamma : ℚ) (state : Int) (action : Nat)
    (Q1 Q2 : Table) (g : RandState) :
    Option (Nat × Table × Table × RandState × Int × ℚ × Bool) :=
  let res := E.stepf state action
  let s1 := res.1
  let r := res.2.1
  let done := res.2.2
  let coin := npRand g
  if coin.1 < 1/2 then
    match rowGet Q1 s1 with
    | none => none
    | some rowA =>
      if rowA.length = 0 then none
      else
        let a1 := argmaxList rowA
        match getEntry Q2 s1 a1, getEntry Q1 state action with
        | some qb, some qa =>
          match setEntry Q1 state action (qa + alpha * (r + gamma * qb - qa)) with
          | some Q1n => some (action, Q1n, Q2, coin.2, s1, r, done)
          | none => none
        | _, _ => none
  else
    match rowGet Q2 s1 with
    | none => none
    | some rowB =>
      if rowB.length = 0 then none
      else
        let a1 := argmaxList rowB
        match getEntry Q1 s1 a1, getEntry Q2 state action with
        | some qa, some qb =>
          match setEntry Q2 state action (qb + alpha * (r + gamma * qa - qb)) with
          | some Q2n => some (action, Q1, Q2n, coin.2, s1, r, done)
          | none => none
        | _, _ => none

/-- One pass of the double_qlearning body: the action is chosen by the
epsilon-greedy policy over the elementwise sum `Q1 + Q2`. -/
def doubleBody (E : Env) (alpha gamma epsilon : ℚ) (state : Int)
    (Q1 Q2 : Table) (g : RandState) :
    Option (Nat × Table × Table × RandState × Int × ℚ × Bool) :=
  match egreedy_policy state (addTables Q1 Q2) epsilon g with
  | none => none
  | some (action, g1) => doubleUpdate E alpha gamma state action Q1 Q2 g1

/-- The double_qlearning episode loop, fuel-indexed. -/
def doubleLoop (E : Env) (alpha gamma epsilon : ℚ) :
    Nat → Int → Table → Table → RandState → ℚ →
    Option (Table × Table × RandState × ℚ)
  | 0, _, _, _, _, _ => none
  | fuel + 1, state, Q1, Q2, g, acc =>
    match doubleBody E alpha gamma epsilon state Q1 Q2 g with
    | none => none
    | some (_, Q1n, Q2n, g1, s1, r, done) =>
      if done then some (Q1n, Q2n, g1, acc + r)
      else doubleLoop E alpha gamma epsilon fuel s1 Q1n Q2n g1 (acc + r)

/-- The outer episode loop of double_qlearning, carrying both tables. -/
def doubleEpisodes (E : Env) (alpha gamma epsilon : ℚ) (fuel : Nat) :
    Nat → Table → Table → RandState → List ℚ →
    Option (Table × Table × List ℚ × RandState)
  | 0, Q1, Q2, g, trace => some (Q1, Q2, trace, g)
  | n + 1, Q1, Q2, g, trace =>
    match doubleLoop E alpha gamma epsilon fuel E.reset Q1 Q2 g 0 with
    | none => none
    | some (Q1n, Q2n, g1, total) =>
      doubleEpisodes E alpha gamma epsilon fuel n Q1n Q2n g1 (trace ++ [total])

/-- `double_qlearning(env, alpha, gamma, epsilon, num_episodes)`:
runs the episodes on two zero tables and returns `(Q1 + Q2) / 2`. -/
def double_qlearning (E : Env) (alpha gamma epsilon : ℚ) (num_episodes : Int)
    (fuel : Nat) (g : RandState) : Option (Table × List ℚ × RandState) :=
  match doubleEpisodes E alpha gamma epsilon fuel num_episodes.toNat
      (zero_value E) (zero_value E) g [] with
  | none => none
  | some (Q1, Q2, trace, g1) => some (halfTable (addTables Q1 Q2), trace, g1)

/-- The two-state, two-action deterministic test environment of the
specification's concrete scenario: in state 0, action 0 moves to state 1
with reward 1 and terminates, action 1 stays in state 0 with reward 0;
state 1 is terminal-ish (any action ends the episode with reward 0). -/
def Etest : Env :=
  Env.mk 2 2 0 (fun s a =>
    if s = 0 ∧ a = 0 then (1, 1, true)
    else if s = 0 ∧ a = 1 then (0, 0, false)
    else (1, 0, true))

/-- A random state with no queued draws: every `rand()` yields 0 and
every `choice` yields index 0. -/
def gZero : RandState := RandState.mk [] []

/-- The zero 2x2 table. -/
def QZ : Table := [[0, 0], [0, 0]]

/-- The 2x2 table after one scenario update: entry (0,0) holds 1/2. -/
def QA : Table := [[1/2, 0], [0, 0]]

/-! ### Helper lemmas -/

/-- Unfolding equation for `argmaxList` on a list of two or more items. -/
theorem argmax_cons (x y : ℚ) (rest : List ℚ) :
    argmaxList (x :: y :: rest) =
      if x < (y :: rest).getD (argmaxList (y :: rest)) 0 then
        argmaxList (y :: rest) + 1
      else 0 := by
  rw [argmaxList]

/-- `argmaxList` of a nonempty list is an index of the list. -/
theorem argmax_lt_length : ∀ l : List ℚ, l ≠ [] → argmaxList l < l.length
  | [x], _ => by simp [argmaxList]
  | x :: y :: rest, _ => by
    have ih := argmax_lt_length (y :: rest) (by simp)
    rw [argmax_cons]
    by_cases h : x < (y :: rest).getD (argmaxList (y :: rest)) 0
    · rw [if_pos h, List.length_cons]
      omega
    · rw [if_neg h]
      simp

/-- The entry at `argmaxList` is the maximum of the list. -/
theorem argmax_is_max : ∀ (l : List ℚ) (j : Nat), j < l.length →
    l.getD j 0 ≤ l.getD (argmaxList l) 0
  | [], j, hj => by simp at hj
  | [x], j, hj => by
    cases j with
    | zero => simp [argmaxList]
    | succ j => exact absurd hj (by simp)
  | x :: y :: rest, j, hj => by
    rw [argmax_cons]
    by_cases h : x < (y :: rest).getD (argmaxList (y :: rest)) 0
    · rw [if_pos h, List.getD_cons_succ]
      cases j with
      | zero => simpa using h.le
      | succ j =>
        rw [List.getD_cons_succ]
        exact argmax_is_max (y :: rest) j (by simpa using hj)
    · rw [if_neg h, List.getD_cons_zero]
      cases j with
      | zero => simp
      | succ j =>
        rw [List.getD_cons_succ]
        exact le_trans (argmax_is_max (y :: rest) j (by simpa using hj))
          (not_lt.1 h)

/-- `argmaxList` is the first index achieving the maximum. -/
theorem argmax_first : ∀ (l : List ℚ) (j : Nat), j < l.length →
    l.getD j 0 = l.getD (argmaxList l) 0 → argmaxList l ≤ j
  | [], j, hj, _ => by simp at hj
  | [x], j, hj, _ => by
    simp [argmaxList]
  | x :: y :: rest, j, hj, he => by
    rw [argmax_cons] at he ⊢
    by_cases h : x < (y :: rest).getD (argmaxList (y :: rest)) 0
    · rw [if_pos h] at he ⊢
      cases j with
      | zero =>
        rw [List.getD_cons_zero, List.getD_cons_succ] at he
        rw [he] at h
        exact absurd h (lt_irrefl _)
      | succ j =>
        rw [List.getD_cons_succ, List.getD_cons_succ] at he
        exact Nat.succ_le_succ
          (argmax_first (y :: rest) j (by simpa using hj) he)
    · rw [if_neg h]
      exact Nat.zero_le j

/-- A valid random source never produces a negative uniform draw. -/
theorem npRand_nonneg (g : RandState) (hg : g.Valid) : 0 ≤ (npRand g).1 := by
  cases hr : g.rands with
  | nil => simp [npRand, hr]
  | cons x xs =>
    simpa [npRand, hr] using (hg x (by rw [hr]; exact List.mem_cons_self x xs)).1

/-- With epsilon = 0 the policy always takes the greedy branch: on an
in-bounds state with a nonempty row it returns the argmax of the row,
having consumed exactly one uniform draw. -/
theorem egreedy_zero (s : Int) (Q : Table) (g : RandState) (row : List ℚ)
    (hg : g.Valid) (hrow : rowGet Q s = some row) (hne : row ≠ []) :
    egreedy_policy s Q 0 g = some (argmaxList row, (npRand g).2) := by
  have h0 : ¬ (npRand g).1 < 0 := not_lt.2 (npRand_nonneg g hg)
  simp [egreedy_policy, h0, hrow, List.length_eq_zero, hne]

/-- Whatever branch the policy takes, a successful call has consumed the
head of the uniform-draw stream. -/
theorem egreedy_rands (s : Int) (Q : Table) (epsilon : ℚ) (g : RandState)
    (a1 : Nat) (g1 : RandState)
    (h : egreedy_policy s Q epsilon g = some (a1, g1)) :
    g1.rands = g.rands.tail := by
  simp only [egreedy_policy] at h
  by_cases hc : (npRand g).1 < epsilon
  · rw [if_pos hc] at h
    cases hrow : rowGet Q s with
    | none => simp only [hrow] at h; exact absurd h (by simp)
    | some row =>
      simp only [hrow] at h
      by_cases hlen : row.length = 0
      · rw [if_pos hlen] at h; exact absurd h (by simp)
      · rw [if_neg hlen] at h
        have h2 : (npChoice row.length (npRand g).2).2 = g1 :=
          congrArg Prod.snd (Option.some.inj h)
        rw [← h2]
        simp [npChoice, npRand]
  · rw [if_neg hc] at h
    cases hrow : rowGet Q s with
    | none => simp only [hrow] at h; exact absurd h (by simp)
    | some row =>
      simp only [hrow] at h
      by_cases hlen : row.length = 0
      · rw [if_pos hlen] at h; exact absurd h (by simp)
      · rw [if_neg hlen] at h
        have h2 : (npRand g).2 = g1 :=
          congrArg Prod.snd (Option.some.inj h)
        rw [← h2]
        simp [npRand]

/-- The empty random source is valid. -/
theorem gZero_valid : RandState.Valid gZero := by
  intro x hx
  simp [gZero] at hx

/-! ### Claim theorems -/

/-- Claim C6: for every table `Q` and in-bounds state `s` (with a
nonempty action row), `egreedy_policy` with epsilon = 0 is deterministic
apart from consuming one uniform draw — it returns exactly the argmax of
the row `Q[s]` together with the source advanced by one draw — and that
argmax is the lowest action index achieving the maximum of the row: it
is a valid index, its entry dominates every entry, and every index with
an equal entry is at least it. -/
theorem egreedy_eps_zero_first_max (s : Int) (Q : Table) (g : RandState)
    (row : List ℚ) (hg : g.Valid) (hrow : rowGet Q s = some row)
    (hne : row ≠ []) :
    egreedy_policy s Q 0 g = some (argmaxList row, (npRand g).2) ∧
    argmaxList row < row.length ∧
    (∀ j, j < row.length → row.getD j 0 ≤ row.getD (argmaxList row) 0) ∧
    (∀ j, j < row.length → row.getD j 0 = row.getD (argmaxList row) 0 →
      argmaxList row ≤ j) :=
  ⟨egreedy_zero s Q g row hg hrow hne, argmax_lt_length row hne,
   fun j hj => argmax_is_max row j hj,
   fun j hj he => argmax_first row j hj he⟩

/-- Witness for C6, on a row with a tied maximum: over `[3, 5, 5, 2]`
the policy returns index 1, the first of the two tied maxima. -/
theorem egreedy_eps_zero_first_max_witness :
    egreedy_policy 0 [[(3 : ℚ), 5, 5, 2]] 0 gZero = some (1, gZero) ∧
    (1 : Nat) < 4 := by
  have h := egreedy_eps_zero_first_max 0 [[(3 : ℚ), 5, 5, 2]] gZero
    [3, 5, 5, 2] gZero_valid (by decide) (by decide)
  have ha : argmaxList [(3 : ℚ), 5, 5, 2] = 1 := by decide
  refine ⟨?_, by decide⟩
  have h1 := h.1
  rw [ha] at h1
  simpa [npRand, gZero] using h1

/-- Claim C7: `egreedy_policy` fails (returns `none`, modelling the
IndexError) whenever the integer state index names no row of the table,
that is whenever it falls outside the numpy-addressable range
`[-|S|, |S|)`. -/
theorem egreedy_out_of_bounds_none (s : Int) (Q : Table) (epsilon : ℚ)
    (g : RandState)
    (hs : s < -(Q.length : Int) ∨ (Q.length : Int) ≤ s) :
    egreedy_policy s Q epsilon g = none := by
  have hrow : rowGet Q s = none := by
    have h1 : ¬ (0 ≤ s ∧ s < (Q.length : Int)) := by omega
    have h2 : ¬ (-(Q.length : Int) ≤ s ∧ s < 0) := by omega
    simp [rowGet, normIdx, h1, h2]
  by_cases hc : (npRand g).1 < epsilon <;>
    simp [egreedy_policy, hc, hrow]

/-- Witness for C7: state index 5 on a table with one row of two
actions. -/
theorem egreedy_out_of_bounds_none_witness :
    egreedy_policy 5 [[(0 : ℚ), 1]] 0 gZero = none :=
  egreedy_out_of_bounds_none 5 [[(0 : ℚ), 1]] 0 gZero (Or.inr (by decide))

/-- Claim C2: one pass of the sarsa loop chooses the next action by the
epsilon-greedy policy over the same table being learned (hypothesis
`h1`), updates the current entry to
`Q[s][a] + alpha * (reward + gamma * Q[s1][a1] - Q[s][a])` where `a1` is
that chosen next action (hypothesis `h4` fixes the written value), and
then continues the loop from the pair `(s1, a1)`, so the action executed
on the following step is exactly the action used in the bootstrap. -/
theorem sarsa_step_update_and_advance (E : Env) (alpha gamma epsilon : ℚ)
    (fuel : Nat) (s : Int) (a : Nat) (Q : Table) (g : RandState) (acc : ℚ)
    (a1 : Nat) (g1 : RandState) (qsa qn : ℚ) (Qn : Table)
    (h1 : egreedy_policy (E.stepf s a).1 Q epsilon g = some (a1, g1))
    (h2 : getEntry Q s a = some qsa)
    (h3 : getEntry Q (E.stepf s a).1 a1 = some qn)
    (h4 : setEntry Q s a
      (qsa + alpha * ((E.stepf s a).2.1 + gamma * qn - qsa)) = some Qn) :
    sarsaLoop E alpha gamma epsilon (fuel + 1) s a Q g acc =
      if (E.stepf s a).2.2 then some (Qn, g1, acc + (E.stepf s a).2.1)
      else sarsaLoop E alpha gamma epsilon fuel (E.stepf s a).1 a1 Qn g1
        (acc + (E.stepf s a).2.1) := by
  simp only [sarsaLoop, sarsaBody, h1, h2, h3, h4]

/-- Witness for C2, on the terminal transition of the test scenario. -/
theorem sarsa_step_update_and_advance_witness :
    sarsaLoop Etest (1/2) 1 0 1 0 0 QZ gZero 0 = some (QA, gZero, 0 + 1) := by
  have hstep : Etest.stepf 0 0 = (1, 1, true) := by decide
  have h := sarsa_step_update_and_advance Etest (1/2) 1 0 0 0 0 QZ gZero 0
    0 gZero 0 0 QA (by decide) (by decide) (by decide)
    (by rw [hstep]; unfold QZ QA setEntry normIdx; norm_num)
  rw [hstep] at h
  simpa using h

/-- Claim C10: on a sarsa step whose transition reports `done = true`, a
next action is still selected through `egreedy_policy` — if that
selection fails the whole loop fails, and when it succeeds it has
consumed the head of the shared uniform-draw stream — and the update on
the terminal transition still bootstraps from the stored value
`gamma * Q[s1][a1]` of the terminal state's row rather than from a hard
zero target. -/
theorem sarsa_terminal_step_selects_and_bootstraps (E : Env)
    (alpha gamma epsilon : ℚ) (fuel : Nat) (s : Int) (a : Nat)
    (Q : Table) (g : RandState) (acc : ℚ)
    (hdone : (E.stepf s a).2.2 = true) :
    (egreedy_policy (E.stepf s a).1 Q epsilon g = none →
      sarsaLoop E alpha gamma epsilon (fuel + 1) s a Q g acc = none) ∧
    (∀ a1 g1 qsa qn Qn,
      egreedy_policy (E.stepf s a).1 Q epsilon g = some (a1, g1) →
      getEntry Q s a = some qsa →
      getEntry Q (E.stepf s a).1 a1 = some qn →
      setEntry Q s a
        (qsa + alpha * ((E.stepf s a).2.1 + gamma * qn - qsa)) = some Qn →
      sarsaLoop E alpha gamma epsilon (fuel + 1) s a Q g acc =
        some (Qn, g1, acc + (E.stepf s a).2.1) ∧
      g1.rands = g.rands.tail) := by
  constructor
  · intro hnone
    simp only [sarsaLoop, sarsaBody, hnone]
  · intro a1 g1 qsa qn Qn h1 h2 h3 h4
    refine ⟨?_, egreedy_rands _ _ _ _ _ _ h1⟩
    simp only [sarsaLoop, sarsaBody, h1, h2, h3, h4, hdone, if_true]

/-- Witness for C10, on a terminal transition whose landing row holds
the nonzero value 4: the update target is `0 + 1/2 * (1 + 1 * 4 - 0)`,
so the written entry is 5/2, visibly bootstrapped from the stored row. -/
theorem sarsa_terminal_step_selects_and_bootstraps_witness :
    sarsaLoop Etest (1/2) 1 0 1 0 0 [[0, 0], [4, 0]] gZero 0 =
      some ([[5/2, 0], [4, 0]], gZero, 0 + 1) ∧
    gZero.rands = gZero.rands.tail := by
  have hstep : Etest.stepf 0 0 = (1, 1, true) := by decide
  have h := (sarsa_terminal_step_selects_and_bootstraps Etest (1/2) 1 0 0
    0 0 [[0, 0], [4, 0]] gZero 0 (by decide)).2
    0 gZero 0 4 [[5/2, 0], [4, 0]] (by decide) (by decide) (by decide)
    (by rw [hstep]; unfold setEntry normIdx; norm_num)
  rw [hstep] at h
  simpa using h

/-- Claim C3: one pass of the qlearning loop chooses the executed action
epsilon-greedily at the top of the step (hypothesis `h1`), and updates
the current entry toward
`reward + gamma * max over the next state's row` — the bootstrap value
is the argmax entry of the next row (hypothesis `h4` fixes the written
value) and that entry dominates every entry of the row (second
conjunct) — after which the loop carries only the next state forward, so
the update is independent of the action executed on the following step. -/
theorem qlearning_step_max_bootstrap (E : Env) (alpha gamma epsilon : ℚ)
    (fuel : Nat) (s : Int) (Q : Table) (g : RandState) (acc : ℚ)
    (a : Nat) (g1 : RandState) (row : List ℚ) (qsa : ℚ) (Qn : Table)
    (h1 : egreedy_policy s Q epsilon g = some (a, g1))
    (h2 : rowGet Q (E.stepf s a).1 = some row)
    (hne : row ≠ [])
    (h3 : getEntry Q s a = some qsa)
    (h4 : setEntry Q s a
      (qsa + alpha * ((E.stepf s a).2.1 +
        gamma * row.getD (argmaxList row) 0 - qsa)) = some Qn) :
    qlearningLoop E alpha gamma epsilon (fuel + 1) s Q g acc =
      (if (E.stepf s a).2.2 then some (Qn, g1, acc + (E.stepf s a).2.1)
       else qlearningLoop E alpha gamma epsilon fuel (E.stepf s a).1 Qn g1
         (acc + (E.stepf s a).2.1)) ∧
    (∀ j, j < row.length → row.getD j 0 ≤ row.getD (argmaxList row) 0) := by
  constructor
  · have hlen : ¬ row.length = 0 := by
      simpa [List.length_eq_zero] using hne
    simp only [qlearningLoop, qlearningBody, qlearningUpdate, h1, h2, h3, h4,
      hlen, if_false, ite_false]
  · intro j hj
    exact argmax_is_max row j hj

/-- Witness for C3, on the first step of the test scenario. -/
theorem qlearning_step_max_bootstrap_witness :
    qlearningLoop Etest (1/2) 1 0 1 0 QZ gZero 0 = some (QA, gZero, 0 + 1) ∧
    List.getD [(0 : ℚ), 0] 1 0 ≤
      List.getD [(0 : ℚ), 0] (argmaxList [(0 : ℚ), 0]) 0 := by
  have hstep : Etest.stepf 0 0 = (1, 1, true) := by decide
  have h := qlearning_step_max_bootstrap Etest (1/2) 1 0 0 0 QZ gZero 0
    0 gZero [0, 0] 0 QA (by decide) (by rw [hstep]; decide) (by decide)
    (by decide)
    (by rw [hstep]; unfold QZ QA setEntry normIdx argmaxList; norm_num)
  refine ⟨?_, h.2 1 (by decide)⟩
  have h1 := h.1
  rw [hstep] at h1
  simpa using h1

/-- Claim C4: after the transition of a double_qlearning step, the coin
`rand() < 1/2` decides which table is updated: on heads, table `Q1` is
updated as
`Q1[s][a] += alpha * (r + gamma * Q2[s1][argmax Q1[s1]] - Q1[s][a])`
(argmax over `Q1`'s next row, bootstrap value read from `Q2`), and on
tails symmetrically `Q2` is updated using `Q1`. -/
theorem double_q_update_coin (E : Env) (alpha gamma : ℚ) (s : Int) (a : Nat)
    (Q1 Q2 : Table) (g : RandState) :
    ((npRand g).1 < 1/2 →
      ∀ rowA qb qa Q1n,
        rowGet Q1 (E.stepf s a).1 = some rowA → rowA ≠ [] →
        getEntry Q2 (E.stepf s a).1 (argmaxList rowA) = some qb →
        getEntry Q1 s a = some qa →
        setEntry Q1 s a
          (qa + alpha * ((E.stepf s a).2.1 + gamma * qb - qa)) = some Q1n →
        doubleUpdate E alpha gamma s a Q1 Q2 g =
          some (a, Q1n, Q2, (npRand g).2, (E.stepf s a).1,
            (E.stepf s a).2.1, (E.stepf s a).2.2)) ∧
    (¬ (npRand g).1 < 1/2 →
      ∀ rowB qa qb Q2n,
        rowGet Q2 (E.stepf s a).1 = some rowB → rowB ≠ [] →
        getEntry Q1 (E.stepf s a).1 (argmaxList rowB) = some qa →
        getEntry Q2 s a = some qb →
        setEntry Q2 s a
          (qb + alpha * ((E.stepf s a).2.1 + gamma * qa - qb)) = some Q2n →
        doubleUpdate E alpha gamma s a Q1 Q2 g =
          some (a, Q1, Q2n, (npRand g).2, (E.stepf s a).1,
            (E.stepf s a).2.1, (E.stepf s a).2.2)) := by
  constructor
  · intro hc rowA qb qa Q1n hrow hne hqb hqa hset
    have hlen : ¬ rowA.length = 0 := by
      simpa [List.length_eq_zero] using hne
    simp only [doubleUpdate, if_pos hc, hrow, hlen, hqb, hqa, hset,
      if_false, ite_false]
  · intro hc rowB qa qb Q2n hrow hne hqa hqb hset
    have hlen : ¬ rowB.length = 0 := by
      simpa [List.length_eq_zero] using hne
    simp only [doubleUpdate, if_neg hc, hrow, hlen, hqa, hqb, hset,
      if_false, ite_false]

/-- Witness for C4: with a queued draw of 0 the coin lands heads and
`Q1` absorbs the update; with a queued draw of 3/4 it lands tails and
`Q2` does, `Q1` staying untouched. -/
theorem double_q_update_coin_witness :
    doubleUpdate Etest (1/2) 1 0 0 QZ QZ gZero =
      some (0, QA, QZ, gZero, 1, 1, true) ∧
    doubleUpdate Etest (1/2) 1 0 0 QZ QZ (RandState.mk [3/4] []) =
      some (0, QZ, QA, gZero, 1, 1, true) := by
  have hstep : Etest.stepf 0 0 = (1, 1, true) := by decide
  have hset : setEntry QZ 0 0 ((0 : ℚ) + 1/2 * (1 + 1 * 0 - 0)) = some QA := by
    unfold QZ QA setEntry normIdx
    norm_num
  constructor
  · have h := (double_q_update_coin Etest (1/2) 1 0 0 QZ QZ gZero).1
      (by norm_num [npRand, gZero]) [0, 0] 0 0 QA
      (by rw [hstep]; decide) (by decide) (by rw [hstep]; decide) (by decide)
      (by rw [hstep]; exact hset)
    rw [hstep] at h
    simpa [npRand, gZero] using h
  · have h := (double_q_update_coin Etest (1/2) 1 0 0 QZ QZ
      (RandState.mk [3/4] [])).2
      (by norm_num [npRand]) [0, 0] 0 0 QA
      (by rw [hstep]; decide) (by decide) (by rw [hstep]; decide) (by decide)
      (by rw [hstep]; exact hset)
    rw [hstep] at h
    simpa [npRand, gZero] using h

/-- Claim C5: in double_qlearning every action is selected by the
epsilon-greedy policy applied to the elementwise sum `Q1 + Q2` (first
conjunct: the body factors through that policy call; second conjunct:
under epsilon = 0 the selected action is the argmax of the sum's row,
not of either table alone), and the table handed back to the caller is
the elementwise average `(Q1 + Q2) / 2` of the two accumulated tables
(third conjunct). -/
theorem double_q_sum_selection_and_average (E : Env)
    (alpha gamma epsilon : ℚ) (num_episodes : Int) (fuel : Nat)
    (g : RandState) :
    (∀ state Q1 Q2 g0,
      doubleBody E alpha gamma epsilon state Q1 Q2 g0 =
        match egreedy_policy state (addTables Q1 Q2) epsilon g0 with
        | none => none
        | some (a, g1) => doubleUpdate E alpha gamma state a Q1 Q2 g1) ∧
    (∀ state Q1 Q2 g0 row, RandState.Valid g0 →
      rowGet (addTables Q1 Q2) state = some row → row ≠ [] →
      doubleBody E alpha gamma 0 state Q1 Q2 g0 =
        doubleUpdate E alpha gamma state (argmaxList row) Q1 Q2
          (npRand g0).2) ∧
    (∀ Q1 Q2 trace g1,
      doubleEpisodes E alpha gamma epsilon fuel num_episodes.toNat
          (zero_value E) (zero_value E) g [] = some (Q1, Q2, trace, g1) →
      double_qlearning E alpha gamma epsilon num_episodes fuel g =
        some (halfTable (addTables Q1 Q2), trace, g1)) := by
  refine ⟨fun state Q1 Q2 g0 => rfl, ?_, ?_⟩
  · intro state Q1 Q2 g0 row hg hrow hne
    simp only [doubleBody, egreedy_zero state (addTables Q1 Q2) g0 row hg
      hrow hne]
  · intro Q1 Q2 trace g1 h
    simp only [double_qlearning, h]

unseal Rat.add Rat.mul Rat.inv Rat.sub in
/-- Witness for C5: in the test scenario, the epsilon = 0 body reduces
to the update at the argmax of the summed row, and the returned table is
the elementwise average of the two internal tables. -/
theorem double_q_sum_selection_and_average_witness :
    doubleBody Etest (1/2) 1 0 0 QZ QZ gZero =
      doubleUpdate Etest (1/2) 1 0 (argmaxList [0, 0]) QZ QZ gZero ∧
    double_qlearning Etest (1/2) 1 0 1 5 gZero =
      some (halfTable (addTables QA QZ), [1], gZero) := by
  have h := double_q_sum_selection_and_average Etest (1/2) 1 0 1 5 gZero
  constructor
  · have h2 := h.2.1 0 QZ QZ gZero [0, 0] gZero_valid (by decide) (by decide)
    simpa [npRand, gZero] using h2
  · exact h.2.2 QA QZ [1] gZero (by decide)

/-- Each completed sarsa episode appends exactly one total to the trace. -/
theorem sarsaEpisodes_length (E : Env) (alpha gamma epsilon : ℚ)
    (fuel : Nat) :
    ∀ (n : Nat) (Q : Table) (g : RandState) (trace : List ℚ)
      (Qf : Table) (tf : List ℚ) (gf : RandState),
      sarsaEpisodes E alpha gamma epsilon fuel n Q g trace =
        some (Qf, tf, gf) →
      tf.length = trace.length + n := by
  intro n
  induction n with
  | zero =>
    intro Q g trace Qf tf gf h
    simp only [sarsaEpisodes, Option.some.injEq, Prod.mk.injEq] at h
    rw [← h.2.1]
    simp
  | succ n ih =>
    intro Q g trace Qf tf gf h
    simp only [sarsaEpisodes] at h
    cases hE : egreedy_policy E.reset Q epsilon g with
    | none => simp [hE] at h
    | some p =>
      obtain ⟨a, g1⟩ := p
      simp only [hE] at h
      cases hL : sarsaLoop E alpha gamma epsilon fuel E.reset a Q g1 0 with
      | none => simp [hL] at h
      | some q =>
        obtain ⟨Qn, g2, total⟩ := q
        simp only [hL] at h
        have hlen := ih _ _ _ _ _ _ h
        simp only [List.length_append, List.length_cons,
          List.length_nil] at hlen
        omega

/-- Each completed qlearning episode appends exactly one total to the
trace. -/
theorem qlearningEpisodes_length (E : Env) (alpha gamma epsilon : ℚ)
    (fuel : Nat) :
    ∀ (n : Nat) (Q : Table) (g : RandState) (trace : List ℚ)
      (Qf : Table) (tf : List ℚ) (gf : RandState),
      qlearningEpisodes E alpha gamma epsilon fuel n Q g trace =
        some (Qf, tf, gf) →
      tf.length = trace.length + n := by
  intro n
  induction n with
  | zero =>
    intro Q g trace Qf tf gf h
    simp only [qlearningEpisodes, Option.some.injEq, Prod.mk.injEq] at h
    rw [← h.2.1]
    simp
  | succ n ih =>
    intro Q g trace Qf tf gf h
    simp only [qlearningEpisodes] at h
    cases hL : qlearningLoop E alpha gamma epsilon fuel E.reset Q g 0 with
    | none => simp [hL] at h
    | some q =>
      obtain ⟨Qn, g1, total⟩ := q
      simp only [hL] at h
      have hlen := ih _ _ _ _ _ _ h
      simp only [List.length_append, List.length_cons,
        List.length_nil] at hlen
      omega

/-- Each completed double_qlearning episode appends exactly one total to
the trace. -/
theorem doubleEpisodes_length (E : Env) (alpha gamma epsilon : ℚ)
    (fuel : Nat) :
    ∀ (n : Nat) (Q1 Q2 : Table) (g : RandState) (trace : List ℚ)
      (Qf1 Qf2 : Table) (tf : List ℚ) (gf : RandState),
      doubleEpisodes E alpha gamma epsilon fuel n Q1 Q2 g trace =
        some (Qf1, Qf2, tf, gf) →
      tf.length = trace.length + n := by
  intro n
  induction n with
  | zero =>
    intro Q1 Q2 g trace Qf1 Qf2 tf gf h
    simp only [doubleEpisodes, Option.some.injEq, Prod.mk.injEq] at h
    rw [← h.2.2.1]
    simp
  | succ n ih =>
    intro Q1 Q2 g trace Qf1 Qf2 tf gf h
    simp only [doubleEpisodes] at h
    cases hL : doubleLoop E alpha gamma epsilon fuel E.reset Q1 Q2 g 0 with
    | none => simp [hL] at h
    | some q =>
      obtain ⟨Q1n, Q2n, g1, total⟩ := q
      simp only [hL] at h
      have hlen := ih _ _ _ _ _ _ _ _ h
      simp only [List.length_append, List.length_cons,
        List.length_nil] at hlen
      omega

/-- Claim C8: for every environment of the model and every positive
episode count, each of sarsa, qlearning and double_qlearning, whenever
it returns (terminating without error within the fuel), returns a reward
trace whose length equals exactly the requested episode count. -/
theorem reward_trace_length_eq_episodes (E : Env) (alpha gamma epsilon : ℚ)
    (n : Int) (fuel : Nat) (g : RandState) (hn : 0 < n) :
    (∀ Qf tf gf, sarsa E alpha gamma epsilon n fuel g = some (Qf, tf, gf) →
      (tf.length : Int) = n) ∧
    (∀ Qf tf gf, qlearning E alpha gamma epsilon n fuel g =
      some (Qf, tf, gf) → (tf.length : Int) = n) ∧
    (∀ Qf tf gf, double_qlearning E alpha gamma epsilon n fuel g =
      some (Qf, tf, gf) → (tf.length : Int) = n) := by
  refine ⟨?_, ?_, ?_⟩
  · intro Qf tf gf h
    have hlen := sarsaEpisodes_length E alpha gamma epsilon fuel n.toNat
      _ _ _ _ _ _ h
    simp only [List.length_nil] at hlen
    omega
  · intro Qf tf gf h
    have hlen := qlearningEpisodes_length E alpha gamma epsilon fuel n.toNat
      _ _ _ _ _ _ h
    simp only [List.length_nil] at hlen
    omega
  · intro Qf tf gf h
    simp only [double_qlearning] at h
    cases hD : doubleEpisodes E alpha gamma epsilon fuel n.toNat
        (zero_value E) (zero_value E) g [] with
    | none => simp [hD] at h
    | some q =>
      obtain ⟨Q1, Q2, tr, g1⟩ := q
      simp only [hD, Option.some.injEq, Prod.mk.injEq] at h
      have hlen := doubleEpisodes_length E alpha gamma epsilon fuel n.toNat
        _ _ _ _ _ _ _ _ hD
      simp only [List.length_nil] at hlen
      rw [← h.2.1]
      omega

unseal Rat.add Rat.mul Rat.inv Rat.sub in
/-- Witness for C8: one episode of each algorithm on the test scenario
yields the one-entry trace `[1]`. -/
theorem reward_trace_length_eq_episodes_witness :
    (([(1 : ℚ)].length : Int) = 1 ∧
     ([(1 : ℚ)].length : Int) = 1 ∧
     ([(1 : ℚ)].length : Int) = 1) := by
  have h := reward_trace_length_eq_episodes Etest (1/2) 1 0 1 5 gZero
    (by decide)
  exact ⟨h.1 QA [1] gZero (by decide),
    h.2.1 QA [1] gZero (by decide),
    h.2.2 [[1/4, 0], [0, 0]] [1] gZero (by decide)⟩

unseal Rat.add Rat.mul Rat.inv Rat.sub in
/-- Claim C1, evaluated on the code at the failing inputs: no
hyperparameter validation is performed. A call with epsilon = 2 (outside
[0, 1]) trains and returns an updated table; calls with episode count 0
or -3 return the untouched zero table and an empty trace without error;
a call with alpha = 2 (outside (0, 1]) and one with gamma = 3/2 (outside
[0, 1]) also train and return tables. Nothing is rejected before
training. -/
theorem no_hyperparameter_validation :
    sarsa Etest (1/2) 1 2 1 5 gZero = some (QA, [1], gZero) ∧
    qlearning Etest (1/2) 1 (1/10) 0 5 gZero = some (QZ, [], gZero) ∧
    qlearning Etest (1/2) 1 (1/10) (-3) 5 gZero = some (QZ, [], gZero) ∧
    double_qlearning Etest 2 1 (1/10) 1 5 gZero =
      some ([[1, 0], [0, 0]], [1], gZero) ∧
    sarsa Etest (1/2) (3/2) 0 1 5 gZero = some (QA, [1], gZero) := by
  refine ⟨by decide, by decide, by decide, by decide, by decide⟩

unseal Rat.add Rat.mul Rat.inv Rat.sub in
/-- Counterexample to claim C9 as stated: on the specified scenario
(gamma = 1, alpha = 1/2, epsilon = 0, one episode beginning with action
0), double_qlearning does not leave `table[0,0]` equal to 1/2 — the
table it returns carries 1/4 at (0,0), the average of the one updated
internal table and the untouched one. -/
theorem scenario_double_q_entry_is_quarter :
    (double_qlearning Etest (1/2) 1 0 1 5 gZero).map
      (fun r => getEntry r.1 0 0) = some (some (1/4)) ∧
    (1/4 : ℚ) ≠ 1/2 := by
  decide

unseal Rat.add Rat.mul Rat.inv Rat.sub in
/-- Claim C9 as amended: on the scenario environment with gamma = 1,
alpha = 1/2, epsilon = 0 and one episode (which begins by choosing
action 0), sarsa and qlearning leave `table[0,0]` equal to exactly 1/2;
double_qlearning drives the coin-selected internal table's (0,0) entry
to 1/2 (whichever table the coin picks), but the table it returns is the
elementwise average of the two internal tables, whose (0,0) entry is
1/4. -/
theorem scenario_one_episode_table_values :
    sarsa Etest (1/2) 1 0 1 5 gZero = some (QA, [1], gZero) ∧
    qlearning Etest (1/2) 1 0 1 5 gZero = some (QA, [1], gZero) ∧
    getEntry QA 0 0 = some (1/2) ∧
    doubleEpisodes Etest (1/2) 1 0 5 1 QZ QZ gZero [] =
      some (QA, QZ, [1], gZero) ∧
    doubleEpisodes Etest (1/2) 1 0 5 1 QZ QZ (RandState.mk [0, 3/4] []) [] =
      some (QZ, QA, [1], gZero) ∧
    double_qlearning Etest (1/2) 1 0 1 5 gZero =
      some ([[1/4, 0], [0, 0]], [1], gZero) := by
  refine ⟨by decide, by decide, by decide, by decide, by decide, by decide⟩

end TD
